import Mathlib

/-!
Verification development for the news-entry extraction pipeline
(`scripts/extract_news.py`): a shallow embedding of the segmenter,
date normalizer, content renderer cleanup and output writer, together
with theorems settling the specified properties.

The HTML parser, the `html2text` converter and the SHA-256 digest are
external collaborators; they appear as parameters (`Node` fields,
`h2t`, `sha`) rather than as reimplementations.
-/

namespace ExtractNews

/-! ## Character classes (Python `\s`, `[A-Z]`, `[a-z]`, `\d` over ASCII, plus
the Unicode whitespace set recognised by `str.strip` and `re` `\s`). -/

def pyWs (c : Char) : Bool :=
  c == ' ' || c == '\t' || c == '\n' || c == '\r' || c == '\x0b' || c == '\x0c' ||
  c == '\x1c' || c == '\x1d' || c == '\x1e' || c == '\x1f' || c == '\x85' ||
  c == ' ' || c == ' ' || c == ' ' || c == ' ' || c == ' ' ||
  c == ' ' || c == ' ' || c == ' ' || c == ' ' || c == ' ' ||
  c == ' ' || c == ' ' || c == ' ' || c == ' ' || c == ' ' ||
  c == ' ' || c == ' ' || c == '　'

def isUpperAZ (c : Char) : Bool := 'A' ≤ c && c ≤ 'Z'

def isLowerAZ (c : Char) : Bool := 'a' ≤ c && c ≤ 'z'

def isDigitAscii (c : Char) : Bool := '0' ≤ c && c ≤ '9'

/-! ## Python `str.strip()` (both-ends whitespace strip, lines 80 and 111/151). -/

def rstripL : List Char → List Char
  | [] => []
  | c :: t =>
    let r := rstripL t
    if r.isEmpty && pyWs c then [] else c :: r

def pyStripL (l : List Char) : List Char := rstripL (l.dropWhile pyWs)

def pyStrip (s : String) : String := ⟨pyStripL s.data⟩

/-! ## The newline-collapsing cleanup, line 83:
`re.sub(r'\n{3,}', '\n\n', markdown)`: every maximal run of three or more
newline characters becomes exactly two. -/

theorem dropWhile_length_le (p : α → Bool) (l : List α) :
    (l.dropWhile p).length ≤ l.length := by
  induction l with
  | nil => simp [List.dropWhile]
  | cons a t ih =>
    by_cases h : p a
    · simp only [List.dropWhile_cons_of_pos h, List.length_cons]
      omega
    · simp [List.dropWhile_cons_of_neg h]

def collapseNl : List Char → List Char
  | [] => []
  | c :: t =>
    if c = '\n' then
      let n := 1 + (t.takeWhile (fun d => d = '\n')).length
      let rest := t.dropWhile (fun d => d = '\n')
      (if 3 ≤ n then ['\n', '\n'] else List.replicate n '\n') ++ collapseNl rest
    else
      c :: collapseNl t
termination_by l => l.length
decreasing_by
  · simp only [List.length_cons]
    have h := dropWhile_length_le (fun d => decide (d = '\n')) t
    omega
  · simp only [List.length_cons]
    omega

def collapseStr (s : String) : String := ⟨collapseNl s.data⟩

/-- Lines 80-83 of `extract_news.py`: `markdown.strip()` followed by the
newline-run collapse. -/
def cleanupMarkdown (s : String) : String := collapseStr (pyStrip s)

/-- Cleanup in the order the specification describes it: collapse the newline
runs first, then trim the outer whitespace. -/
def cleanupCollapseFirst (s : String) : String := pyStrip (collapseStr s)

/-! ## Ordinal-suffix removal, line 39:
`re.sub(r'(\d+)(st|nd|rd|th)', r'\1', date_str)`.  A match is a run of
ASCII digits immediately followed by one of the four two-letter suffixes;
the replacement keeps the digits and deletes the suffix.  Because none of
the suffixes contains a digit and the replacement leaves the digits in
place, the regex substitution deletes exactly those suffix occurrences that
immediately follow a digit, which the one-character-lookahead scan below
reproduces. -/

def isOrdSuffix (a b : Char) : Bool :=
  (a == 's' && b == 't') || (a == 'n' && b == 'd') ||
  (a == 'r' && b == 'd') || (a == 't' && b == 'h')

def ordSubL : List Char → List Char
  | c :: a :: b :: r =>
    if isDigitAscii c && isOrdSuffix a b then c :: ordSubL r
    else c :: ordSubL (a :: b :: r)
  | l => l

def stripOrdinals (s : String) : String := ⟨ordSubL s.data⟩

/-! ## The `datetime.strptime` model for the two formats used at lines 42–48:
`'%B %d, %Y'` and `'%b %d, %Y'`.  CPython compiles these formats to the
case-insensitive regex `(month-name alternation) \s+ (3[01]|[12]\d|0[1-9]|[1-9])
, \s+ \d\d\d\d` which must consume the whole string, and then the
`datetime` constructor validates the calendar date (proleptic Gregorian,
year between 1 and 9999). -/

structure PyDate where
  y : Nat
  m : Nat
  d : Nat
deriving Repr, DecidableEq

def monthsFull : List (String × Nat) :=
  [("January", 1), ("February", 2), ("March", 3), ("April", 4), ("May", 5),
   ("June", 6), ("July", 7), ("August", 8), ("September", 9), ("October", 10),
   ("November", 11), ("December", 12)]

def monthsAbbr : List (String × Nat) :=
  [("Jan", 1), ("Feb", 2), ("Mar", 3), ("Apr", 4), ("May", 5), ("Jun", 6),
   ("Jul", 7), ("Aug", 8), ("Sep", 9), ("Oct", 10), ("Nov", 11), ("Dec", 12)]

/-- Strip a pattern word from the front of the input, comparing characters
case-insensitively (the strptime regex carries `re.IGNORECASE`). -/
def ciStrip : List Char → List Char → Option (List Char)
  | [], l => some l
  | _ :: _, [] => none
  | p :: ps, c :: cs => if p.toLower == c.toLower then ciStrip ps cs else none

/-- Match one month name from the table (no month name starts another
month name, so at most one alternative can match). -/
def monthCI (names : List (String × Nat)) (l : List Char) : Option (Nat × List Char) :=
  names.findSome? fun nv => (ciStrip nv.1.data l).map fun r => (nv.2, r)

def digitVal (c : Char) : Nat := c.toNat - 48

/-- The day alternatives of the strptime regex `3[01]|[12]\d|0[1-9]|[1-9]`,
in order; the engine backtracks through them against the rest of the
format. -/
def dayAlts (l : List Char) : List (Nat × List Char) :=
  (match l with
   | '3' :: c :: r => if c == '0' then [(30, r)] else if c == '1' then [(31, r)] else []
   | _ => []) ++
  (match l with
   | c :: d :: r =>
     if (c == '1' || c == '2') && isDigitAscii d then
       [(digitVal c * 10 + digitVal d, r)]
     else []
   | _ => []) ++
  (match l with
   | '0' :: d :: r => if '1' ≤ d && d ≤ '9' then [(digitVal d, r)] else []
   | _ => []) ++
  (match l with
   | d :: r => if '1' ≤ d && d ≤ '9' then [(digitVal d, r)] else []
   | _ => [])

/-- The tail of the format after the day: a literal comma, `\s+`, exactly
four digits, end of input (`strptime` rejects unconverted trailing data). -/
def commaWsYearEnd : List Char → Option Nat
  | ',' :: r =>
    let ws := r.takeWhile pyWs
    let r2 := r.dropWhile pyWs
    if ws.isEmpty then none
    else
      match r2 with
      | [a, b, c, d] =>
        if isDigitAscii a && isDigitAscii b && isDigitAscii c && isDigitAscii d then
          some (digitVal a * 1000 + digitVal b * 100 + digitVal c * 10 + digitVal d)
        else none
      | _ => none
  | _ => none

def isLeapYear (y : Nat) : Bool := y % 4 == 0 && (y % 100 != 0 || y % 400 == 0)

def daysInMonth (y m : Nat) : Nat :=
  if m == 2 then (if isLeapYear y then 29 else 28)
  else if m == 4 || m == 6 || m == 9 || m == 11 then 30
  else 31

/-- Validation performed by the `datetime` constructor. -/
def pyDatetimeValid (y m d : Nat) : Bool :=
  1 ≤ y && y ≤ 9999 && 1 ≤ m && m ≤ 12 && 1 ≤ d && d ≤ daysInMonth y m

/-- `datetime.strptime(s, '<month table> %d, %Y')`. -/
def strptimeMonthDY (names : List (String × Nat)) (s : String) : Option PyDate :=
  match monthCI names s.data with
  | none => none
  | some (m, r1) =>
    let ws := r1.takeWhile pyWs
    let r2 := r1.dropWhile pyWs
    if ws.isEmpty then none
    else
      match (dayAlts r2).findSome? (fun dr => (commaWsYearEnd dr.2).map fun y => (dr.1, y)) with
      | none => none
      | some (d, y) => if pyDatetimeValid y m d then some ⟨y, m, d⟩ else none

/-! ## `strftime('%Y-%m-%d')` for valid dates.  glibc zero-pads `%m` and `%d`
to two digits but prints `%Y` without padding (`datetime(5,1,1)` renders as
`5-01-01`), so the year is rendered as a plain decimal numeral. -/

def digitChar (n : Nat) : Char := Char.ofNat (48 + n)

def fmtYear (n : Nat) : String :=
  if n < 10 then ⟨[digitChar n]⟩
  else if n < 100 then ⟨[digitChar (n / 10), digitChar (n % 10)]⟩
  else if n < 1000 then ⟨[digitChar (n / 100), digitChar (n / 10 % 10), digitChar (n % 10)]⟩
  else if n < 10000 then
    ⟨[digitChar (n / 1000), digitChar (n / 100 % 10), digitChar (n / 10 % 10), digitChar (n % 10)]⟩
  else toString n

def fmt2 (n : Nat) : String :=
  if n < 100 then ⟨[digitChar (n / 10 % 10), digitChar (n % 10)]⟩ else toString n

def isoOf (dt : PyDate) : String := fmtYear dt.y ++ "-" ++ fmt2 dt.m ++ "-" ++ fmt2 dt.d

/-- Lines 29-50 of `extract_news.py`.  Returns the pair
`(datetime-or-None, iso-or-original-string)`: on success of either format
the second component is the ISO rendering, on failure of both it is the
*input* string unchanged. -/
def parse_date (dateStr : String) : Option PyDate × String :=
  let clean := stripOrdinals dateStr
  match strptimeMonthDY monthsFull clean with
  | some dt => (some dt, isoOf dt)
  | none =>
    match strptimeMonthDY monthsAbbr clean with
    | some dt => (some dt, isoOf dt)
    | none => (none, dateStr)

/-! ## The leading-date regex of lines 115-118:
`re.match(r'([A-Z][a-z]+\s+\d+(?:st|nd|rd|th)?,\s+\d{4}),?\s*(.*)', title_text)`.
All the character classes involved are pairwise disjoint at each juncture, so
greedy maximal-munch scanning reproduces the backtracking engine exactly;
`.` does not match a newline, and `re.match` anchors at the start only. -/

def matchDateTail (t : List Char) : Option (List Char × List Char) :=
  let low := t.takeWhile isLowerAZ
  let r1 := t.dropWhile isLowerAZ
  if low.isEmpty then none
  else
    let ws1 := r1.takeWhile pyWs
    let r2 := r1.dropWhile pyWs
    if ws1.isEmpty then none
    else
      let ds := r2.takeWhile isDigitAscii
      let r3 := r2.dropWhile isDigitAscii
      if ds.isEmpty then none
      else
        let suf : List Char × List Char :=
          match r3 with
          | a :: b :: r4 => if isOrdSuffix a b then ([a, b], r4) else ([], a :: b :: r4)
          | r => ([], r)
        match suf.2 with
        | ',' :: r5 =>
          let ws2 := r5.takeWhile pyWs
          let r6 := r5.dropWhile pyWs
          if ws2.isEmpty then none
          else
            match r6 with
            | y1 :: y2 :: y3 :: y4 :: r7 =>
              if isDigitAscii y1 && isDigitAscii y2 && isDigitAscii y3 && isDigitAscii y4 then
                let g1 := low ++ ws1 ++ ds ++ suf.1 ++ [','] ++ ws2 ++ [y1, y2, y3, y4]
                let r8 := match r7 with | ',' :: rr => rr | rr => rr
                let r9 := r8.dropWhile pyWs
                some (g1, r9.takeWhile (fun c => !(c == '\n')))
              else none
            | _ => none
        | _ => none

/-- `re.match` of the date pattern against the whole title text; returns
`(group(1), group(2))` on success. -/
def matchDateTitle (s : String) : Option (String × String) :=
  match s.data with
  | [] => none
  | c :: t =>
    if isUpperAZ c then
      (matchDateTail t).map fun p => (⟨c :: p.1⟩, ⟨p.2⟩)
    else none

/-- The fields a heading contributes to an entry. -/
structure TitleParse where
  dateStr : Option String
  dateIso : Option String
  dt : Option PyDate
  title : String
deriving Repr, DecidableEq

/-- Lines 113-128 of `extract_news.py`: split a leading date phrase off the
heading text and normalise it. -/
def parseTitle (titleText : String) : TitleParse :=
  match matchDateTitle titleText with
  | some (g1, g2) =>
    let p := parse_date g1
    { dateStr := some g1, dateIso := some p.2, dt := p.1, title := pyStrip g2 }
  | none =>
    { dateStr := none, dateIso := none, dt := none, title := titleText }

/-! ## The document model and the segmenter (lines 88-164).

The parsing collaborator (`lxml`) provides the ordered list of the page's
top-level sibling nodes; each node carries its tag, its `id` attribute (absent,
empty or non-empty), the joined `itertext()` of the node, and its byte-stable
`tostring` serialisation.  `//h3[@id]` selects every `h3` whose `id`
*attribute is present* (an empty `id=""` qualifies), while the sibling scan of
lines 134-145 breaks on `current.get('id')` being *truthy* (an empty `id`
does not break it) or on an `h1`. -/

structure Node where
  tag : String
  idAttr : Option String
  text : String
  html : String
deriving Repr, DecidableEq

def defaultNode : Node := ⟨"", none, "", ""⟩

/-- `//h3[@id]`: tag `h3` and the `id` attribute present. -/
def isEntryBoundary (n : Node) : Bool := n.tag == "h3" && n.idAttr.isSome

/-- Python truthiness of `current.get('id')`. -/
def truthyId (n : Node) : Bool :=
  match n.idAttr with
  | some s => !(s == "")
  | none => false

/-- The break condition of the sibling scan: `h3` with a truthy `id`, or `h1`. -/
def isStop (n : Node) : Bool := (n.tag == "h3" && truthyId n) || n.tag == "h1"

/-- The indices of the entry-boundary nodes, in document order. -/
def boundaryIdxList (doc : List Node) : List Nat :=
  (List.range doc.length).filter fun j => isEntryBoundary (doc.getD j defaultNode)

/-- The sibling scan of lines 130-145 started below index `j`: collect
following nodes while the break condition fails. -/
def bodySpan (doc : List Node) (j : Nat) : List Node :=
  (doc.drop (j + 1)).takeWhile fun n => !isStop n

def spanLen (doc : List Node) (j : Nat) : Nat := (bodySpan doc j).length

/-- Positional membership: the node at document index `k` is collected into
the body span of the boundary at index `j`. -/
def inSpan (doc : List Node) (j k : Nat) : Bool :=
  decide (j < k) && decide (k < j + 1 + spanLen doc j)

/-- `'\n'.join(...)`. -/
def joinNl : List String → String
  | [] => ""
  | [s] => s
  | s :: t => s ++ "\n" ++ joinNl (t)

/-- One extracted entry, as built at lines 153-162. -/
structure Entry where
  id : String
  titleFull : String
  title : String
  dateStr : Option String
  dateIso : Option String
  dt : Option PyDate
  contentHtml : String
  index : Nat
deriving Repr, DecidableEq

/-- The body of the `for i, h3 in enumerate(news_h3s)` loop for the boundary
at document index `j` with sequence index `i`. -/
def buildEntry (doc : List Node) (i j : Nat) : Entry :=
  let n := doc.getD j defaultNode
  let titleText := pyStrip n.text
  let tp := parseTitle titleText
  { id := n.idAttr.getD ""
    titleFull := titleText
    title := tp.title
    dateStr := tp.dateStr
    dateIso := tp.dateIso
    dt := tp.dt
    contentHtml := pyStrip (joinNl ((bodySpan doc j).map Node.html))
    index := i }

/-- `extract_news_entries`: one entry per `//h3[@id]` node, in document
order. -/
def entries (doc : List Node) : List Entry :=
  (boundaryIdxList doc).enum.map fun p => buildEntry doc p.1 p.2

/-! ## The output writer, `create_news_markdown` (lines 167-225).  The
SHA-256 digest and the configured `html2text` handler are external
collaborators passed as function parameters. -/

/-- Python truthiness of an optional string. -/
def pyTruthy : Option String → Bool
  | none => false
  | some s => !(s == "")

/-- `f"{n:03d}"`. -/
def pad3 (n : Nat) : String :=
  if n < 1000 then ⟨[digitChar (n / 100), digitChar (n / 10 % 10), digitChar (n % 10)]⟩
  else toString n

/-- `entry["title_full"].replace('"', '\\"')`. -/
def pyReplaceQuote (s : String) : String :=
  ⟨(s.data.map fun c => if c == '"' then ['\\', '"'] else [c]).flatten⟩

/-- Lines 181-187: date-based filename when `date_iso` is truthy, else the
zero-padded sequence index. -/
def newsFilename (e : Entry) : String :=
  if pyTruthy e.dateIso then e.dateIso.getD "" ++ "-" ++ e.id ++ ".md"
  else pad3 e.index ++ "-" ++ e.id ++ ".md"

/-- Lines 191-211: the YAML frontmatter block. -/
def newsFrontmatter (sha : String → String) (e : Entry) : String :=
  "---\n" ++
  ("title: \"" ++ pyReplaceQuote e.titleFull ++ "\"\n") ++
  (if pyTruthy e.dateIso then "date: " ++ e.dateIso.getD "" ++ "T00:00:00Z\n" else "") ++
  ("slug: " ++ e.id ++ "\n") ++
  "type: news\n" ++
  (if pyTruthy e.dateStr then "date_display: \"" ++ e.dateStr.getD "" ++ "\"\n" else "") ++
  ("checksum_html: " ++ sha e.contentHtml ++ "\n") ++
  "---\n\n"

/-- Lines 53-85: `html_to_markdown` is the converter collaborator followed by
the idempotent cleanup. -/
def html_to_markdown (h2t : String → String) (htmlContent : String) : String :=
  cleanupMarkdown (h2t htmlContent)

/-- `create_news_markdown`: the filename together with the file content
(frontmatter, then the body in the requested mode). -/
def create_news_markdown (sha h2t : String → String) (e : Entry) (keepHtml : Bool) :
    String × String :=
  (newsFilename e,
   newsFrontmatter sha e ++
     (if keepHtml then e.contentHtml else html_to_markdown h2t e.contentHtml))

/-! ## The run driver `main` (lines 228-292), minus filesystem and console
plumbing: the mode fallback, the per-entry writes and the summary
statistics. -/

structure RunResult where
  formatMode : String
  fallbackWarningCount : Nat
  files : List (String × String)
  entryCount : Nat
  withDates : Nat
  withoutDates : Nat
deriving Repr, DecidableEq

def runMain (hasH2T htmlFlag : Bool) (sha h2t : String → String) (doc : List Node) :
    RunResult :=
  let fallback := !htmlFlag && !hasH2T
  let keepHtml := htmlFlag || fallback
  let es := entries doc
  let dated := es.countP fun e => pyTruthy e.dateIso
  { formatMode := if keepHtml then "HTML" else "Markdown"
    fallbackWarningCount := if fallback then 1 else 0
    files := es.map fun e => create_news_markdown sha h2t e keepHtml
    entryCount := es.length
    withDates := dated
    withoutDates := es.length - dated }

/-! ## Lemmas about the cleanup step. -/

/-- Unfolding equation for `collapseNl` at a newline. -/
theorem collapseNl_cons_nl (t : List Char) :
    collapseNl ('\n' :: t) =
      (if 3 ≤ 1 + (t.takeWhile (fun d => decide (d = '\n'))).length then ['\n', '\n']
       else List.replicate (1 + (t.takeWhile (fun d => decide (d = '\n'))).length) '\n') ++
      collapseNl (t.dropWhile (fun d => decide (d = '\n'))) := by
  rw [collapseNl]
  rw [if_pos (show ('\n' : Char) = '\n' from rfl)]

/-- Unfolding equation for `collapseNl` at a non-newline character. -/
theorem collapseNl_cons_ne (c : Char) (t : List Char) (hc : ¬ c = '\n') :
    collapseNl (c :: t) = c :: collapseNl t := by
  rw [collapseNl, if_neg hc]

/-- No three consecutive newline characters occur anywhere. -/
def NoTriple (l : List Char) : Prop := ¬ ∃ a b, l = a ++ ['\n', '\n', '\n'] ++ b

theorem noTriple_nil : NoTriple [] := by
  rintro ⟨a, b, h⟩
  have := congrArg List.length h
  simp at this
  omega

theorem noTriple_of_cons {c : Char} {l : List Char} (h : NoTriple (c :: l)) : NoTriple l := by
  rintro ⟨a, b, rfl⟩
  exact h ⟨c :: a, b, rfl⟩

theorem noTriple_append_right {x y : List Char} (h : NoTriple (x ++ y)) : NoTriple y := by
  rintro ⟨a, b, rfl⟩
  exact h ⟨x ++ a, b, by simp⟩

theorem noTriple_append_left {x y : List Char} (h : NoTriple (x ++ y)) : NoTriple x := by
  rintro ⟨a, b, rfl⟩
  exact h ⟨a, b ++ y, by simp⟩

theorem noTriple_cons {c : Char} {l : List Char} (hc : c ≠ '\n') (h : NoTriple l) :
    NoTriple (c :: l) := by
  rintro ⟨a, b, hab⟩
  cases a with
  | nil =>
    simp only [List.nil_append, List.cons_append] at hab
    injection hab with h1 h2
    exact hc h1
  | cons a0 a2 =>
    simp only [List.cons_append] at hab
    injection hab with h1 h2
    exact h ⟨a2, b, h2⟩

theorem noTriple_one_nl {l : List Char} (hh : ∀ c, l.head? = some c → c ≠ '\n')
    (h : NoTriple l) : NoTriple ('\n' :: l) := by
  rintro ⟨a, b, hab⟩
  cases a with
  | nil =>
    simp only [List.nil_append, List.cons_append] at hab
    injection hab with h1 h2
    exact hh '\n' (by rw [h2]; rfl) rfl
  | cons a0 a2 =>
    simp only [List.cons_append] at hab
    injection hab with h1 h2
    exact h ⟨a2, b, h2⟩

theorem noTriple_two_nl {l : List Char} (hh : ∀ c, l.head? = some c → c ≠ '\n')
    (h : NoTriple l) : NoTriple ('\n' :: '\n' :: l) := by
  rintro ⟨a, b, hab⟩
  cases a with
  | nil =>
    simp only [List.nil_append, List.cons_append] at hab
    injection hab with h1 h2
    injection h2 with h3 h4
    exact hh '\n' (by rw [h4]; rfl) rfl
  | cons a0 a2 =>
    simp only [List.cons_append] at hab
    injection hab with h1 h2
    cases a2 with
    | nil =>
      simp only [List.nil_append, List.cons_append] at h2
      injection h2 with h3 h4
      exact hh '\n' (by rw [h4]; rfl) rfl
    | cons a1 a3 =>
      simp only [List.cons_append] at h2
      injection h2 with h3 h4
      exact h ⟨a3, b, h4⟩

theorem collapseNl_nil : collapseNl [] = [] := by
  rw [collapseNl]

theorem collapseNl_ne_nil {l : List Char} (h : l ≠ []) : collapseNl l ≠ [] := by
  cases l with
  | nil => exact absurd rfl h
  | cons c t =>
    by_cases hc : c = '\n'
    · subst hc
      rw [collapseNl_cons_nl]
      by_cases h3 : 3 ≤ 1 + (t.takeWhile (fun d => decide (d = '\n'))).length
      · rw [if_pos h3]; simp
      · rw [if_neg h3]; simp
    · rw [collapseNl_cons_ne c t hc]; simp

theorem collapseNl_head? {l : List Char} (hh : ∀ c, l.head? = some c → c ≠ '\n') :
    (collapseNl l).head? = l.head? := by
  cases l with
  | nil => rw [collapseNl_nil]
  | cons c t =>
    have hc : c ≠ '\n' := hh c rfl
    rw [collapseNl_cons_ne c t hc]
    rfl

theorem head?_dropWhile_ne {p : α → Bool} {l : List α} {c : α}
    (h : (l.dropWhile p).head? = some c) : p c = false := by
  have := List.head?_dropWhile_not p l
  rw [h] at this
  exact this

theorem noTriple_collapseNl (l : List Char) : NoTriple (collapseNl l) := by
  induction l using collapseNl.induct with
  | case1 => rw [collapseNl_nil]; exact noTriple_nil
  | case2 t rest ih =>
    have ihr : NoTriple (collapseNl (t.dropWhile (fun d => decide (d = '\n')))) := ih
    rw [collapseNl_cons_nl]
    have hrest : ∀ d, ((collapseNl (t.dropWhile (fun d => decide (d = '\n')))).head? = some d) →
        d ≠ '\n' := by
      intro d hd
      rw [collapseNl_head?] at hd
      · intro hdn
        have := head?_dropWhile_ne hd
        rw [hdn] at this
        simp at this
      · intro d2 hd2 hdn2
        have := head?_dropWhile_ne hd2
        rw [hdn2] at this
        simp at this
    by_cases h3 : 3 ≤ 1 + (t.takeWhile (fun d => decide (d = '\n'))).length
    · rw [if_pos h3]
      exact noTriple_two_nl hrest ihr
    · rw [if_neg h3]
      have h1 : (t.takeWhile (fun d => decide (d = '\n'))).length = 0 ∨
          (t.takeWhile (fun d => decide (d = '\n'))).length = 1 := by omega
      rcases h1 with h1 | h1
      · rw [h1]
        exact noTriple_one_nl hrest ihr
      · rw [h1]
        exact noTriple_two_nl hrest ihr
  | case3 c t hc ih =>
    rw [collapseNl_cons_ne c t hc]
    exact noTriple_cons hc ih

theorem takeWhile_nl_eq_replicate (t : List Char) :
    t.takeWhile (fun d => decide (d = '\n')) =
      List.replicate (t.takeWhile (fun d => decide (d = '\n'))).length '\n' := by
  apply List.eq_replicate_of_mem
  intro x hx
  have := List.mem_takeWhile_imp hx
  simpa using this

theorem collapseNl_eq_self {l : List Char} (h : NoTriple l) : collapseNl l = l := by
  induction l using collapseNl.induct with
  | case1 => rw [collapseNl_nil]
  | case2 t rest ih =>
    have ihr : ∀ h2 : NoTriple (t.dropWhile (fun d => decide (d = '\n'))),
        collapseNl (t.dropWhile (fun d => decide (d = '\n'))) =
          t.dropWhile (fun d => decide (d = '\n')) := fun h2 => ih h2
    rw [collapseNl_cons_nl]
    have hrep := takeWhile_nl_eq_replicate t
    have htw := List.takeWhile_append_dropWhile (fun d => decide (d = '\n')) t
    have hlen : (t.takeWhile (fun d => decide (d = '\n'))).length ≤ 1 := by
      by_contra hgt
      push_neg at hgt
      apply h
      refine ⟨[], (t.takeWhile (fun d => decide (d = '\n'))).drop 2 ++
        t.dropWhile (fun d => decide (d = '\n')), ?_⟩
      have h2 : t.takeWhile (fun d => decide (d = '\n')) =
          '\n' :: '\n' :: (t.takeWhile (fun d => decide (d = '\n'))).drop 2 := by
        rcases hk : (t.takeWhile (fun d => decide (d = '\n'))).length with _ | _ | k2
        · omega
        · omega
        · conv_lhs => rw [hrep]
          conv_rhs => rw [hrep]
          rw [hk, List.drop_replicate]
          have hsub : k2 + 1 + 1 - 2 = k2 := by omega
          rw [hsub, List.replicate_succ, List.replicate_succ]
      calc '\n' :: t
          = '\n' :: (t.takeWhile (fun d => decide (d = '\n')) ++
              t.dropWhile (fun d => decide (d = '\n'))) := by rw [htw]
        _ = _ := by rw [h2]; simp
    have h3 : ¬ 3 ≤ 1 + (t.takeWhile (fun d => decide (d = '\n'))).length := by omega
    rw [if_neg h3]
    have hnt : NoTriple t := noTriple_of_cons h
    have hrest : NoTriple (t.dropWhile (fun d => decide (d = '\n'))) :=
      noTriple_append_right (x := t.takeWhile (fun d => decide (d = '\n')))
        (by rw [List.takeWhile_append_dropWhile]; exact hnt)
    rw [ihr hrest]
    calc (List.replicate (1 + (t.takeWhile (fun d => decide (d = '\n'))).length) '\n') ++
          t.dropWhile (fun d => decide (d = '\n'))
        = '\n' :: (List.replicate (t.takeWhile (fun d => decide (d = '\n'))).length '\n' ++
            t.dropWhile (fun d => decide (d = '\n'))) := by
          rw [Nat.add_comm, List.replicate_succ]
          simp
      _ = '\n' :: t := by rw [← hrep, htw]
  | case3 c t hc ih =>
    rw [collapseNl_cons_ne c t hc, ih (noTriple_of_cons h)]

/-! ## Lemmas about stripping. -/

theorem dropWhile_eq_self_of_head {p : α → Bool} {l : List α}
    (h : ∀ c, l.head? = some c → p c = false) : l.dropWhile p = l := by
  cases l with
  | nil => rfl
  | cons c t => exact List.dropWhile_cons_of_neg (by simp [h c rfl])

theorem rstripL_eq_self {l : List Char} (h : ∀ c, l.getLast? = some c → pyWs c = false) :
    rstripL l = l := by
  induction l with
  | nil => rfl
  | cons c t ih =>
    rw [rstripL]
    cases t with
    | nil =>
      have hc := h c rfl
      simp [rstripL, hc]
    | cons b u =>
      have ht : rstripL (b :: u) = b :: u := by
        apply ih
        intro d hd
        exact h d (by rw [← hd]; exact List.getLast?_cons_cons)
      rw [ht]
      simp

theorem rstripL_getLast {l : List Char} {c : Char} (h : (rstripL l).getLast? = some c) :
    pyWs c = false := by
  induction l with
  | nil => simp [rstripL] at h
  | cons b t ih =>
    rw [rstripL] at h
    by_cases hbr : (rstripL t).isEmpty && pyWs b
    · rw [if_pos hbr] at h
      simp at h
    · rw [if_neg hbr] at h
      rcases hrt : rstripL t with _ | ⟨x, u⟩
      · rw [hrt] at h
        simp at h
        rw [hrt] at hbr
        simp at hbr
        rw [← h]
        exact hbr
      · rw [hrt] at h
        rw [List.getLast?_cons_cons] at h
        exact ih (by rw [hrt]; exact h)

theorem rstripL_append_eq (l : List Char) : ∃ m, rstripL l ++ m = l := by
  induction l with
  | nil => exact ⟨[], rfl⟩
  | cons c t ih =>
    rw [rstripL]
    by_cases hbr : (rstripL t).isEmpty && pyWs c
    · exact ⟨c :: t, by rw [if_pos hbr]; rfl⟩
    · obtain ⟨m, hm⟩ := ih
      exact ⟨m, by rw [if_neg hbr]; simp [hm]⟩

theorem rstripL_head? {l : List Char} {c : Char} (h : (rstripL l).head? = some c) :
    l.head? = some c := by
  obtain ⟨m, hm⟩ := rstripL_append_eq l
  rcases hr : rstripL l with _ | ⟨x, u⟩
  · rw [hr] at h; simp at h
  · rw [hr] at h hm
    rw [← hm]
    simpa using h

theorem pyStripL_head {l : List Char} {c : Char} (h : (pyStripL l).head? = some c) :
    pyWs c = false := by
  have h2 := rstripL_head? h
  exact head?_dropWhile_ne h2

theorem pyStripL_getLast {l : List Char} {c : Char} (h : (pyStripL l).getLast? = some c) :
    pyWs c = false := rstripL_getLast h

theorem pyStripL_eq_self {l : List Char}
    (hh : ∀ c, l.head? = some c → pyWs c = false)
    (hl : ∀ c, l.getLast? = some c → pyWs c = false) : pyStripL l = l := by
  rw [pyStripL, dropWhile_eq_self_of_head hh, rstripL_eq_self hl]

theorem pyStripL_idem (l : List Char) : pyStripL (pyStripL l) = pyStripL l :=
  pyStripL_eq_self (fun _ h => pyStripL_head h) (fun _ h => pyStripL_getLast h)

theorem noTriple_pyStripL {l : List Char} (h : NoTriple l) : NoTriple (pyStripL l) := by
  have h1 : NoTriple (l.dropWhile pyWs) :=
    noTriple_append_right (x := l.takeWhile pyWs)
      (by rw [List.takeWhile_append_dropWhile]; exact h)
  obtain ⟨m, hm⟩ := rstripL_append_eq (l.dropWhile pyWs)
  exact noTriple_append_left (y := m)
    (by show NoTriple (rstripL (l.dropWhile pyWs) ++ m); rw [hm]; exact h1)

theorem getLast?_cons_of_ne_nil {c : Char} {t : List Char} (h : t ≠ []) :
    (c :: t).getLast? = t.getLast? := by
  cases t with
  | nil => exact absurd rfl h
  | cons b u => exact List.getLast?_cons_cons

theorem dropWhile_nil_all {p : α → Bool} {l : List α} (h : l.dropWhile p = []) :
    ∀ x ∈ l, p x := by
  intro x hx
  have htw := List.takeWhile_append_dropWhile p l
  rw [h, List.append_nil] at htw
  exact List.mem_takeWhile_imp (by rw [htw]; exact hx)

theorem collapseNl_getLast {l : List Char}
    (h : ∀ c, l.getLast? = some c → pyWs c = false) :
    (collapseNl l).getLast? = l.getLast? := by
  induction l using collapseNl.induct with
  | case1 => rw [collapseNl_nil]
  | case2 t rest ih =>
    have ihr : (∀ c, (t.dropWhile (fun d => decide (d = '\n'))).getLast? = some c →
        pyWs c = false) →
        (collapseNl (t.dropWhile (fun d => decide (d = '\n')))).getLast? =
          (t.dropWhile (fun d => decide (d = '\n'))).getLast? := fun hy => ih hy
    rw [collapseNl_cons_nl]
    by_cases htn0 : t = []
    · subst htn0
      have := h '\n' rfl
      simp [pyWs] at this
    · have htn : t ≠ [] := htn0
      have hlast : ('\n' :: t).getLast? = t.getLast? := getLast?_cons_of_ne_nil htn
      by_cases hrn : t.dropWhile (fun d => decide (d = '\n')) = []
      · exfalso
        have hall := dropWhile_nil_all hrn
        have hmem : t.getLast? = some '\n' := by
          rw [List.getLast?_eq_getLast t htn]
          have hm2 := List.getLast_mem htn
          have h3 := hall _ hm2
          simp at h3
          rw [h3]
        have := h '\n' (by rw [hlast]; exact hmem)
        simp [pyWs] at this
      · have hcn : collapseNl (t.dropWhile (fun d => decide (d = '\n'))) ≠ [] :=
          collapseNl_ne_nil hrn
        rw [List.getLast?_append_of_ne_nil _ hcn]
        have htsplit := List.takeWhile_append_dropWhile (fun d => decide (d = '\n')) t
        have hlast2 : t.getLast? = (t.dropWhile (fun d => decide (d = '\n'))).getLast? := by
          conv_lhs => rw [← htsplit]
          exact List.getLast?_append_of_ne_nil _ hrn
        rw [ihr, ← hlast2, ← hlast]
        intro c hc
        exact h c (by rw [hlast, hlast2]; exact hc)
  | case3 c t hc ih =>
    rw [collapseNl_cons_ne c t hc]
    by_cases htn : t = []
    · subst htn
      rw [collapseNl_nil]
    · have hcn : collapseNl t ≠ [] := collapseNl_ne_nil htn
      rw [getLast?_cons_of_ne_nil hcn, getLast?_cons_of_ne_nil htn]
      apply ih
      intro d hd
      exact h d (by rw [getLast?_cons_of_ne_nil htn]; exact hd)

/-- The list-level composition of the cleanup (strip, then collapse). -/
theorem cleanup_idem_list (d : List Char) :
    collapseNl (pyStripL (collapseNl (pyStripL d))) = collapseNl (pyStripL d) := by
  have hh : ∀ c, (collapseNl (pyStripL d)).head? = some c → pyWs c = false := by
    intro c hc0
    rw [collapseNl_head?] at hc0
    · exact pyStripL_head hc0
    · intro c2 h2 hn2
      have := pyStripL_head h2
      rw [hn2] at this
      simp [pyWs] at this
  have hl : ∀ c, (collapseNl (pyStripL d)).getLast? = some c → pyWs c = false := by
    intro c hc
    rw [collapseNl_getLast (fun c2 h2 => pyStripL_getLast h2)] at hc
    exact pyStripL_getLast hc
  rw [pyStripL_eq_self hh hl]
  exact collapseNl_eq_self (noTriple_collapseNl (pyStripL d))

/-- The list-level composition in the order the specification words it
(collapse, then strip). -/
theorem cleanup_collapse_first_idem_list (d : List Char) :
    pyStripL (collapseNl (pyStripL (collapseNl d))) = pyStripL (collapseNl d) := by
  have hnt : NoTriple (pyStripL (collapseNl d)) :=
    noTriple_pyStripL (noTriple_collapseNl d)
  rw [collapseNl_eq_self hnt, pyStripL_idem]


/-! ## Segmentation lemmas. -/

theorem getD_drop_add (l : List Node) (n i : Nat) :
    (l.drop n).getD i defaultNode = l.getD (n + i) defaultNode := by
  simp [List.getD_eq_getElem?_getD, List.getElem?_drop]

theorem getD_mem {l : List Node} {i : Nat} (h : i < l.length) :
    l.getD i defaultNode ∈ l := by
  have h2 : l.getD i defaultNode = l.get ⟨i, h⟩ := by
    simp [List.getD_eq_getElem?_getD, List.getElem?_eq_getElem h]
  rw [h2]
  exact l.get_mem _ _

/-- Position `m` lies inside `takeWhile p l` precisely when it is inside `l`
and the predicate holds at every position up to `m`. -/
theorem lt_length_takeWhile_iff (p : Node → Bool) (l : List Node) (m : Nat) :
    m < (l.takeWhile p).length ↔
      m < l.length ∧ ∀ i, i ≤ m → p (l.getD i defaultNode) = true := by
  induction l generalizing m with
  | nil => simp
  | cons a t ih =>
    by_cases hpa : p a
    · rw [List.takeWhile_cons_of_pos hpa]
      cases m with
      | zero => simp [hpa]
      | succ m2 =>
        simp only [List.length_cons, Nat.succ_lt_succ_iff]
        rw [ih]
        constructor
        · rintro ⟨h1, h2⟩
          refine ⟨h1, fun i hi => ?_⟩
          cases i with
          | zero => simpa using hpa
          | succ i2 =>
            rw [List.getD_cons_succ]
            exact h2 i2 (by omega)
        · rintro ⟨h1, h2⟩
          refine ⟨h1, fun i hi => ?_⟩
          have := h2 (i + 1) (by omega)
          rw [List.getD_cons_succ] at this
          exact this
    · rw [List.takeWhile_cons_of_neg hpa]
      simp only [List.length_nil]
      constructor
      · omega
      · rintro ⟨h1, h2⟩
        have := h2 0 (by omega)
        rw [List.getD_cons_zero] at this
        exact absurd this hpa

/-- Positional characterisation of span membership: `k` is collected by the
scan started at `j` exactly when `k` lies beyond `j`, inside the document,
and no position in `(j, k]` satisfies the break condition. -/
theorem inSpan_iff (doc : List Node) (j k : Nat) :
    inSpan doc j k = true ↔
      j < k ∧ k < doc.length ∧
        ∀ i, j < i → i ≤ k → isStop (doc.getD i defaultNode) = false := by
  rw [inSpan]
  simp only [Bool.and_eq_true, decide_eq_true_eq]
  constructor
  · rintro ⟨hjk, hlen⟩
    have hm : k - (j + 1) < (bodySpan doc j).length := by
      rw [spanLen] at hlen
      omega
    rw [bodySpan, lt_length_takeWhile_iff] at hm
    obtain ⟨h1, h2⟩ := hm
    rw [List.length_drop] at h1
    refine ⟨hjk, by omega, fun i hi1 hi2 => ?_⟩
    have := h2 (i - (j + 1)) (by omega)
    rw [getD_drop_add] at this
    have heq : j + 1 + (i - (j + 1)) = i := by omega
    rw [heq] at this
    simpa using this
  · rintro ⟨hjk, hklen, hstop⟩
    refine ⟨hjk, ?_⟩
    have hm : k - (j + 1) < (bodySpan doc j).length := by
      rw [bodySpan, lt_length_takeWhile_iff]
      refine ⟨by rw [List.length_drop]; omega, fun i hi => ?_⟩
      rw [getD_drop_add]
      have := hstop (j + 1 + i) (by omega) (by omega)
      simp only [Bool.not_eq_true']
      exact this
    rw [spanLen]
    omega

theorem mem_boundaryIdxList (doc : List Node) (j : Nat) :
    j ∈ boundaryIdxList doc ↔
      j < doc.length ∧ isEntryBoundary (doc.getD j defaultNode) = true := by
  simp [boundaryIdxList, List.mem_filter, List.mem_range]

/-- A greatest witness below a bound. -/
theorem exists_greatest_lt (p : Nat → Bool) (k : Nat) (h : ∃ j, j < k ∧ p j = true) :
    ∃ j, j < k ∧ p j = true ∧ ∀ i, j < i → i < k → p i = false := by
  induction k with
  | zero =>
    obtain ⟨j, hj, _⟩ := h
    omega
  | succ n ih =>
    by_cases hn : p n = true
    · exact ⟨n, by omega, hn, fun i h1 h2 => by omega⟩
    · obtain ⟨j, hj, hpj⟩ := h
      have hjn : j < n := by
        rcases Nat.lt_succ_iff_lt_or_eq.mp hj with h1 | h1
        · exact h1
        · exact absurd (h1 ▸ hpj) hn
      obtain ⟨j2, h1, h2, h3⟩ := ih ⟨j, hjn, hpj⟩
      refine ⟨j2, by omega, h2, fun i hi1 hi2 => ?_⟩
      rcases Nat.lt_succ_iff_lt_or_eq.mp hi2 with h4 | h4
      · exact h3 i hi1 h4
      · subst h4
        simpa using hn

/-- A node whose break test succeeds and which carries an `h3` tag with an
`id` attribute that is non-empty whenever present, is an entry boundary;
conversely every entry boundary with a non-empty `id` is a break node. -/
theorem isStop_of_entryBoundary {n : Node} (hb : isEntryBoundary n = true)
    (hne : n.idAttr ≠ some "") : isStop n = true := by
  rw [isEntryBoundary, Bool.and_eq_true] at hb
  rw [isStop, truthyId]
  rcases hid : n.idAttr with _ | s
  · rw [hid] at hb
    simp at hb
  · have hs : s ≠ "" := fun he => hne (by rw [hid, he])
    simp [hb.1, hs]

theorem entryBoundary_of_stop_h3 {n : Node} (hs : isStop n = true)
    (hn1 : n.tag ≠ "h1") : isEntryBoundary n = true := by
  rw [isStop, Bool.or_eq_true] at hs
  rcases hs with hs | hs
  · rw [Bool.and_eq_true] at hs
    rw [isEntryBoundary, Bool.and_eq_true]
    refine ⟨hs.1, ?_⟩
    have hs2 := hs.2
    rw [truthyId] at hs2
    rcases hid : n.idAttr with _ | s
    · rw [hid] at hs2
      simp at hs2
    · simp [hid]
  · exact absurd (by simpa using hs) hn1

/-! ## Example documents used for concrete checks. -/

def exH3 (i : String) (txt : String) : Node :=
  ⟨"h3", some i, txt, "<h3>" ++ txt ++ "</h3>"⟩

def exP (x : String) : Node := ⟨"p", none, x, "<p>" ++ x ++ "</p>"⟩

def exH1 : Node := ⟨"h1", none, "Older entries", "<h1>Older entries</h1>"⟩

/-- Counterexample document for the partition invariant: a boundary with an
empty identifier and a trailing section break. -/
def exDocC1 : List Node :=
  [exH3 "a" "T", ⟨"h3", some "", "E", "<h3 id=>E</h3>"⟩, exP "q", exH1, exP "tail"]

/-! ## The partition claim, formalised as stated. -/

/-- A heading node (h1-h6) carrying an identifier attribute. -/
def headingWithId (n : Node) : Bool :=
  (n.tag == "h1" || n.tag == "h2" || n.tag == "h3" ||
   n.tag == "h4" || n.tag == "h5" || n.tag == "h6") && n.idAttr.isSome

/-- Some entry boundary lies strictly before position `k`. -/
def followsFirstBoundary (doc : List Node) (k : Nat) : Bool :=
  (List.range k).any fun j => isEntryBoundary (doc.getD j defaultNode)

/-- Position `k` is collected into at least one entry's body span. -/
def coveredIdx (doc : List Node) (k : Nat) : Bool :=
  (boundaryIdxList doc).any fun j => inSpan doc j k

/-- The partition invariant exactly as claimed: body spans are pairwise
disjoint, and every top-level node after the first boundary is either a
heading-with-identifier or collected into some span. -/
def c1PartitionClaim (doc : List Node) : Bool :=
  ((boundaryIdxList doc).all fun j => (boundaryIdxList doc).all fun j2 =>
    j == j2 || ((List.range doc.length).all fun k =>
      !(inSpan doc j k && inSpan doc j2 k))) &&
  ((List.range doc.length).all fun k =>
    !followsFirstBoundary doc k || headingWithId (doc.getD k defaultNode) ||
      coveredIdx doc k)

/-- Claim C1, counterexample: on a document with an empty-identifier `h3`
boundary and an `h1` section break, the claimed partition invariant fails —
the node `<p>q</p>` is collected into two body spans, and the trailing
`<p>tail</p>` node is in no span yet is not a boundary marker. -/
theorem claim_C1_counterexample : c1PartitionClaim exDocC1 = false := by decide

/-- Claim C1, amended: body spans are pairwise disjoint provided no `h3`
carries an *empty* identifier attribute; and a node after the first boundary
that is neither a break node nor collected into any span is always preceded
by an `h1` section break with no entry boundary in between (so only nodes
cut off by an `h1`, the `h1` nodes themselves and the boundary markers are
dropped). -/
theorem claim_C1_amended (doc : List Node) :
    ((∀ n ∈ doc, n.tag = "h3" → n.idAttr ≠ some "") →
      ∀ j ∈ boundaryIdxList doc, ∀ j2 ∈ boundaryIdxList doc, j ≠ j2 →
        ∀ k, ¬(inSpan doc j k = true ∧ inSpan doc j2 k = true)) ∧
    (∀ k, k < doc.length →
      (∃ j, j < k ∧ isEntryBoundary (doc.getD j defaultNode) = true) →
      isStop (doc.getD k defaultNode) = false →
      coveredIdx doc k = false →
      ∃ m, m < k ∧ (doc.getD m defaultNode).tag = "h1" ∧
        ∀ i, m < i → i < k → isEntryBoundary (doc.getD i defaultNode) = false) := by
  constructor
  · intro hne j hj j2 hj2 hjj k hkk
    obtain ⟨h1, h2⟩ := hkk
    have key : ∀ a b : Nat, a ∈ boundaryIdxList doc → b ∈ boundaryIdxList doc →
        a < b → inSpan doc a k = true → inSpan doc b k = true → False := by
      intro a b ha hb hab hsa hsb
      obtain ⟨hblen, hbb⟩ := (mem_boundaryIdxList doc b).mp hb
      have hmem : doc.getD b defaultNode ∈ doc := getD_mem hblen
      have htag : (doc.getD b defaultNode).tag = "h3" := by
        rw [isEntryBoundary, Bool.and_eq_true] at hbb
        simpa using hbb.1
      have hstop : isStop (doc.getD b defaultNode) = true :=
        isStop_of_entryBoundary hbb (hne _ hmem htag)
      rw [inSpan_iff] at hsa hsb
      have hbk : b < k := hsb.1
      have := hsa.2.2 b hab (by omega)
      rw [hstop] at this
      exact Bool.true_eq_false ▸ this
    rcases Nat.lt_trichotomy j j2 with h | h | h
    · exact key j j2 hj hj2 h h1 h2
    · exact hjj h
    · exact key j2 j hj2 hj h h2 h1
  · intro k hk hex hkstop hkcov
    obtain ⟨j, hjk, hpj, hgr⟩ :=
      exists_greatest_lt (fun j => isEntryBoundary (doc.getD j defaultNode)) k hex
    have hjmem : j ∈ boundaryIdxList doc :=
      (mem_boundaryIdxList doc j).mpr ⟨by omega, hpj⟩
    have hnotin : ¬ (inSpan doc j k = true) := by
      rw [coveredIdx, List.any_eq_false] at hkcov
      intro hcontra
      have := hkcov j hjmem
      rw [hcontra] at this
      exact this rfl
    rw [inSpan_iff] at hnotin
    push_neg at hnotin
    obtain ⟨i, hji, hik, histop⟩ := hnotin hjk (by omega)
    have histrue : isStop (doc.getD i defaultNode) = true := by
      cases hb : isStop (doc.getD i defaultNode)
      · exact absurd hb histop
      · rfl
    have hik2 : i < k := by
      rcases Nat.lt_or_ge i k with h | h
      · exact h
      · have : i = k := by omega
        rw [this] at histrue
        rw [histrue] at hkstop
        exact absurd hkstop (by simp)
    by_cases htag : (doc.getD i defaultNode).tag = "h1"
    · exact ⟨i, hik2, htag, fun i2 hi1 hi2 => hgr i2 (by omega) hi2⟩
    · have hb := entryBoundary_of_stop_h3 histrue htag
      have := hgr i hji hik2
      rw [hb] at this
      exact absurd this (by simp)

/-- Claim C1, witness: the amended invariant applied to the three-entry
example document at its dropped trailing node. -/
theorem claim_C1_witness :
    ∃ m, m < 4 ∧ (exDocC1.getD m defaultNode).tag = "h1" ∧
      ∀ i, m < i → i < 4 → isEntryBoundary (exDocC1.getD i defaultNode) = false :=
  (claim_C1_amended exDocC1).2 4 (by decide) ⟨0, by decide⟩ (by decide) (by decide)

/-- Claim C6: the post-conversion cleanup of lines 80-83 (outer-whitespace
strip plus collapsing every run of three or more newlines to exactly two) is
idempotent — both in the order the code performs it (strip, then collapse)
and in the order the specification words it (collapse, then trim). -/
theorem claim_C6_cleanup_idempotent (s : String) :
    cleanupMarkdown (cleanupMarkdown s) = cleanupMarkdown s ∧
    cleanupCollapseFirst (cleanupCollapseFirst s) = cleanupCollapseFirst s := by
  constructor
  · show String.mk (collapseNl (pyStripL (collapseNl (pyStripL s.data)))) =
      String.mk (collapseNl (pyStripL s.data))
    rw [cleanup_idem_list]
  · show String.mk (pyStripL (collapseNl (pyStripL (collapseNl s.data)))) =
      String.mk (pyStripL (collapseNl s.data))
    rw [cleanup_collapse_first_idem_list]

/-! ## The segmenter collection rule (claim C3). -/

/-- The generic fact behind the collection rule: scanning while the break
test fails collects exactly the initial segment before the first break
position. -/
theorem takeWhile_not_eq_take_findIdx (q : α → Bool) (l : List α) :
    l.takeWhile (fun a => !q a) = l.take ((l.findIdx? q).getD l.length) := by
  induction l with
  | nil => rfl
  | cons a t ih =>
    rw [List.findIdx?_cons]
    by_cases hq : q a
    · rw [if_pos hq, List.takeWhile_cons_of_neg (by simp [hq])]
      rfl
    · rw [if_neg hq, List.findIdx?_succ, List.takeWhile_cons_of_pos (by simp [hq]), ih]
      rcases hf : t.findIdx? q with _ | k
      · simp [List.take_succ_cons, List.take_length]
      · simp [List.take_succ_cons]

/-- The document position of the first break node after `j`: the next `h3`
with a truthy identifier or the next `h1`, whichever comes first, or the end
of the document when neither occurs. -/
def firstStopIdx (doc : List Node) (j : Nat) : Nat :=
  match (doc.drop (j + 1)).findIdx? isStop with
  | some k => j + 1 + k
  | none => doc.length

/-- The collection rule exactly as the claim words it: the body span runs up
to (not including) the next *boundary node* — an `h3` carrying an `id`
attribute — or the next `h1`, whichever comes first. -/
def claimStop (n : Node) : Bool := isEntryBoundary n || n.tag == "h1"

def claimedStopIdx (doc : List Node) (j : Nat) : Nat :=
  match (doc.drop (j + 1)).findIdx? claimStop with
  | some k => j + 1 + k
  | none => doc.length

def claimedBodySpan (doc : List Node) (j : Nat) : List Node :=
  (doc.drop (j + 1)).take (claimedStopIdx doc j - (j + 1))

/-- Counterexample document for the collection rule as stated: an `h3` with
an *empty* `id` attribute is a boundary node (the xpath `//h3[@id]` selects
it) but does not terminate the preceding span. -/
def exDocC3 : List Node :=
  [exH3 "x" "T", ⟨"h3", some "", "E", "<h3 id=>E</h3>"⟩, exP "q"]

/-- Claim C3, counterexample: position 0 of `exDocC3` is a boundary heading,
yet its body span is not cut at the next boundary node (the empty-`id` `h3`
at position 1): the scan collects that node and the following paragraph. -/
theorem claim_C3_counterexample :
    0 ∈ boundaryIdxList exDocC3 ∧
      bodySpan exDocC3 0 ≠ claimedBodySpan exDocC3 0 := by
  constructor
  · decide
  · intro h
    have := congrArg List.length h
    simp [bodySpan, claimedBodySpan, exDocC3] at this
    revert this
    decide

/-- Claim C3, amended: for every entry boundary the collected body span is
exactly the run of following siblings up to (not including) the first
*break* node — the next `h3` with a truthy (non-empty) identifier or the
next `h1`, whichever comes first — and through the end of the document when
neither occurs; a document with zero boundary nodes yields zero entries. -/
theorem claim_C3_amended (doc : List Node) :
    (∀ j, j ∈ boundaryIdxList doc →
      bodySpan doc j = (doc.drop (j + 1)).take (firstStopIdx doc j - (j + 1))) ∧
    (boundaryIdxList doc = [] → entries doc = []) := by
  constructor
  · intro j hj
    rw [bodySpan, takeWhile_not_eq_take_findIdx isStop (doc.drop (j + 1)), firstStopIdx]
    rcases hf : (doc.drop (j + 1)).findIdx? isStop with _ | k
    · simp [List.length_drop]
    · simp
  · intro h
    rw [entries, h]
    rfl

/-- Claim C3, witness: the amended collection rule evaluated on the
counterexample document, plus the zero-boundary clause on a document with no
boundary at all. -/
theorem claim_C3_witness :
    bodySpan exDocC3 0 = (exDocC3.drop 1).take (firstStopIdx exDocC3 0 - 1) ∧
      entries [exP "q"] = [] :=
  ⟨(claim_C3_amended exDocC3).1 0 (by decide),
   (claim_C3_amended [exP "q"]).2 (by decide)⟩

/-! ## Identifier-less headings (claim C9). -/

/-- Witness document: a boundary, then an `h3` with no `id` attribute, then
a paragraph. -/
def wdocC9 : List Node :=
  [exH3 "a" "T", ⟨"h3", none, "sub", "<h3>sub</h3>"⟩, exP "z"]

/-- Claim C9: a sibling `h3` that lacks an `id` attribute neither starts a
new entry nor terminates the span being collected — it is not an entry
boundary, the sibling scan collects it, and the scan continues past it. -/
theorem claim_C9_headless_h3 (doc : List Node) (j k : Nat)
    (_hj : j ∈ boundaryIdxList doc) (hk : k < doc.length) (hjk : j < k)
    (htag : (doc.getD k defaultNode).tag = "h3")
    (hid : (doc.getD k defaultNode).idAttr = none)
    (hreach : ∀ i, j < i → i < k → isStop (doc.getD i defaultNode) = false) :
    inSpan doc j k = true ∧ k ∉ boundaryIdxList doc ∧
      (k + 1 < doc.length → isStop (doc.getD (k + 1) defaultNode) = false →
        inSpan doc j (k + 1) = true) := by
  have hkstop : isStop (doc.getD k defaultNode) = false := by
    rw [isStop, truthyId, hid, htag]
    decide
  refine ⟨?_, ?_, ?_⟩
  · rw [inSpan_iff]
    refine ⟨hjk, hk, fun i h1 h2 => ?_⟩
    rcases Nat.lt_or_ge i k with h3 | h3
    · exact hreach i h1 h3
    · have : i = k := by omega
      rw [this]
      exact hkstop
  · intro hmem
    have := ((mem_boundaryIdxList doc k).mp hmem).2
    rw [isEntryBoundary, hid] at this
    simp at this
  · intro hlen hsucc
    rw [inSpan_iff]
    refine ⟨by omega, hlen, fun i h1 h2 => ?_⟩
    rcases Nat.lt_or_ge i k with h3 | h3
    · exact hreach i h1 h3
    · rcases Nat.lt_or_ge i (k + 1) with h4 | h4
      · have : i = k := by omega
        rw [this]
        exact hkstop
      · have : i = k + 1 := by omega
        rw [this]
        exact hsucc

/-- Claim C9, witness: in `wdocC9` the identifier-less `h3` at position 1 is
collected into the span of the boundary at position 0, is itself no entry,
and the paragraph after it is still collected. -/
theorem claim_C9_witness :
    inSpan wdocC9 0 1 = true ∧ 1 ∉ boundaryIdxList wdocC9 ∧
      (1 + 1 < wdocC9.length → isStop (wdocC9.getD (1 + 1) defaultNode) = false →
        inSpan wdocC9 0 (1 + 1) = true) :=
  claim_C9_headless_h3 wdocC9 0 1 (by decide) (by decide) (by decide)
    (by decide) (by decide) (fun i h1 h2 => by omega)

/-! ## Date-normalizer lemmas (claims C2, C8, C10). -/

theorem string_ext {s t : String} (h : s.data = t.data) : s = t := by
  cases s
  cases t
  exact congrArg String.mk h

theorem strptime_valid {names : List (String × Nat)} {s : String} {dt : PyDate}
    (h : strptimeMonthDY names s = some dt) :
    pyDatetimeValid dt.y dt.m dt.d = true := by
  simp only [strptimeMonthDY] at h
  split at h
  · exact absurd h (by simp)
  · split at h
    · exact absurd h (by simp)
    · split at h
      · exact absurd h (by simp)
      · split at h
        · rename_i hv
          injection h with h2
          subst h2
          exact hv
        · exact absurd h (by simp)

theorem parse_date_cases (g : String) :
    ((parse_date g).1 = none ∧ (parse_date g).2 = g) ∨
    (∃ dt, (parse_date g).1 = some dt ∧ (parse_date g).2 = isoOf dt ∧
      pyDatetimeValid dt.y dt.m dt.d = true) := by
  rcases h1 : strptimeMonthDY monthsFull (stripOrdinals g) with _ | dt1
  · rcases h2 : strptimeMonthDY monthsAbbr (stripOrdinals g) with _ | dt2
    · left
      constructor <;> simp [parse_date, h1, h2]
    · right
      exact ⟨dt2, by simp [parse_date, h1, h2], by simp [parse_date, h1, h2],
        strptime_valid h2⟩
  · right
    exact ⟨dt1, by simp [parse_date, h1], by simp [parse_date, h1], strptime_valid h1⟩

theorem matchDateTitle_fst_ne_empty {s g1 g2 : String}
    (h : matchDateTitle s = some (g1, g2)) : g1 ≠ "" := by
  rw [matchDateTitle] at h
  rcases hd : s.data with _ | ⟨c, t⟩
  · rw [hd] at h
    exact absurd h (by simp)
  · rw [hd] at h
    have h2 : (if isUpperAZ c = true then
        Option.map (fun p => (String.mk (c :: p.1), String.mk p.2)) (matchDateTail t)
        else none) = some (g1, g2) := h
    by_cases hu : isUpperAZ c
    · rw [if_pos hu] at h2
      rcases hmt : matchDateTail t with _ | p
      · rw [hmt] at h2
        exact absurd h2 (by simp)
      · rw [hmt] at h2
        simp only [Option.map_some'] at h2
        injection h2 with h3
        have hg1 : g1 = String.mk (c :: p.1) := (congrArg Prod.fst h3).symm
        intro hemp
        rw [hemp] at hg1
        have h4 := congrArg String.data hg1
        exact List.cons_ne_nil c p.1 h4.symm
    · rw [if_neg hu] at h2
      exact absurd h2 (by simp)

theorem isDigitAscii_digitChar {n : Nat} (h : n < 10) : isDigitAscii (digitChar n) = true := by
  interval_cases n <;> decide

theorem daysInMonth_le (y m : Nat) : daysInMonth y m ≤ 31 := by
  rw [daysInMonth]
  split
  · split <;> omega
  · split <;> omega

theorem fmtYear_data_of_1000 {n : Nat} (h1 : 1000 ≤ n) (h2 : n ≤ 9999) :
    (fmtYear n).data = [digitChar (n / 1000), digitChar (n / 100 % 10),
      digitChar (n / 10 % 10), digitChar (n % 10)] := by
  rw [fmtYear, if_neg (by omega), if_neg (by omega), if_neg (by omega), if_pos (by omega)]

theorem fmt2_data {n : Nat} (h : n < 100) :
    (fmt2 n).data = [digitChar (n / 10 % 10), digitChar (n % 10)] := by
  rw [fmt2, if_pos h]

/-- Shape check for a canonical `YYYY-MM-DD` rendering: four digits, dash,
two digits, dash, two digits. -/
def isCanonicalYMD (s : String) : Bool :=
  match s.data with
  | [a, b, c, d, s1, e, f, s2, g, h] =>
      [a, b, c, d, e, f, g, h].all isDigitAscii && s1 == '-' && s2 == '-'
  | _ => false

theorem isCanonicalYMD_isoOf {dt : PyDate} (hv : pyDatetimeValid dt.y dt.m dt.d = true)
    (hy : 1000 ≤ dt.y) : isCanonicalYMD (isoOf dt) = true := by
  rw [pyDatetimeValid] at hv
  simp only [Bool.and_eq_true, decide_eq_true_eq] at hv
  have hdm := daysInMonth_le dt.y dt.m
  have hy2 : dt.y ≤ 9999 := hv.1.1.1.1.2
  have hm2 : dt.m ≤ 12 := hv.1.1.2
  have hd2 : dt.d ≤ daysInMonth dt.y dt.m := hv.2
  have hdata : (isoOf dt).data =
      [digitChar (dt.y / 1000), digitChar (dt.y / 100 % 10), digitChar (dt.y / 10 % 10),
       digitChar (dt.y % 10), '-', digitChar (dt.m / 10 % 10), digitChar (dt.m % 10),
       '-', digitChar (dt.d / 10 % 10), digitChar (dt.d % 10)] := by
    rw [isoOf, String.data_append, String.data_append, String.data_append,
      String.data_append, fmtYear_data_of_1000 hy hy2, fmt2_data (by omega),
      fmt2_data (by omega)]
    rfl
  rw [isCanonicalYMD, hdata]
  show ([digitChar (dt.y / 1000), digitChar (dt.y / 100 % 10), digitChar (dt.y / 10 % 10),
       digitChar (dt.y % 10), digitChar (dt.m / 10 % 10), digitChar (dt.m % 10),
       digitChar (dt.d / 10 % 10), digitChar (dt.d % 10)].all isDigitAscii &&
      ('-' == '-') && ('-' == '-')) = true
  simp only [List.all_cons, List.all_nil, Bool.and_true]
  rw [isDigitAscii_digitChar (by omega), isDigitAscii_digitChar (by omega),
    isDigitAscii_digitChar (by omega), isDigitAscii_digitChar (by omega),
    isDigitAscii_digitChar (by omega), isDigitAscii_digitChar (by omega),
    isDigitAscii_digitChar (by omega), isDigitAscii_digitChar (by omega)]
  decide

theorem isoOf_ne_empty (dt : PyDate) : isoOf dt ≠ "" := by
  intro he
  have hd := congrArg String.data he
  rw [isoOf, String.data_append, String.data_append, String.data_append,
    String.data_append] at hd
  rcases List.append_eq_nil.mp (List.append_eq_nil.mp
    (List.append_eq_nil.mp (List.append_eq_nil.mp hd).1).1).1 with ⟨hfy, hdash⟩
  simp at hdash

/-- Claim C8: the concrete round-trips of the date normalizer: the heading
"August 22nd, 2025" normalises to `2025-08-22`, "June 2nd, 2024" to
`2024-06-02`, and "Not A Date" yields no date with the title unchanged. -/
theorem claim_C8_date_roundtrip :
    (parseTitle "August 22nd, 2025").dateIso = some "2025-08-22" ∧
    (parseTitle "June 2nd, 2024").dateIso = some "2024-06-02" ∧
    (parseTitle "Not A Date").dateIso = none ∧
    (parseTitle "Not A Date").title = "Not A Date" :=
  ⟨rfl, rfl, rfl, rfl⟩

/-- The dichotomy the specification asserts for the date normalizer: the
result either carries a canonical `YYYY-MM-DD` date, or carries no date and
retains the full original heading text as the title. -/
def c2DichotomyClaim (s : String) : Bool :=
  match (parseTitle s).dateIso with
  | some d => isCanonicalYMD d
  | none => (parseTitle s).title == s

/-- Claim C2, counterexample: on the heading "Version 1, 2024 released" the
date grammar matches but calendar parsing fails, and the normalizer returns
the raw phrase "Version 1, 2024" in the normalized-date position with the
stripped remainder "released" as the title — neither a canonical date nor
the original text retained. -/
theorem claim_C2_counterexample :
    c2DichotomyClaim "Version 1, 2024 released" = false := by decide

/-- Claim C2, amended: the normalizer is total, and for every input exactly
one of three outcomes occurs: (a) grammar match plus calendar success,
yielding the strftime rendering of the parsed date (canonical `YYYY-MM-DD`
whenever the year has four non-zero-padded digits) and the stripped
remainder as title; (b) grammar match with calendar failure, yielding the
*raw matched phrase* in the date position and the stripped remainder as
title; (c) no grammar match, yielding no date and the original text,
unchanged, as title. -/
theorem claim_C2_amended (s : String) :
    (∃ g1 g2 dt, matchDateTitle s = some (g1, g2) ∧ (parse_date g1).1 = some dt ∧
      parseTitle s = ⟨some g1, some (isoOf dt), some dt, pyStrip g2⟩ ∧
      (1000 ≤ dt.y → isCanonicalYMD (isoOf dt) = true)) ∨
    (∃ g1 g2, matchDateTitle s = some (g1, g2) ∧ (parse_date g1).1 = none ∧
      parseTitle s = ⟨some g1, some g1, none, pyStrip g2⟩) ∨
    (matchDateTitle s = none ∧ parseTitle s = ⟨none, none, none, s⟩) := by
  rcases hm : matchDateTitle s with _ | ⟨g1, g2⟩
  · right
    right
    exact ⟨rfl, by rw [parseTitle, hm]⟩
  · have hpt : parseTitle s =
        ⟨some g1, some (parse_date g1).2, (parse_date g1).1, pyStrip g2⟩ := by
      rw [parseTitle, hm]
    rcases parse_date_cases g1 with ⟨hfst, hsnd⟩ | ⟨dt, hfst, hsnd, hval⟩
    · right
      left
      refine ⟨g1, g2, rfl, hfst, ?_⟩
      rw [hpt, hfst, hsnd]
    · left
      refine ⟨g1, g2, dt, rfl, hfst, ?_, fun hy => isCanonicalYMD_isoOf hval hy⟩
      rw [hpt, hfst, hsnd]

/-! ## The raw-phrase flow-through (claim C10). -/

/-- Witness document for the raw-phrase case. -/
def wdocC10 : List Node :=
  [⟨"h3", some "v1", "Version 1, 2024 released", "<h3>Version 1, 2024 released</h3>"⟩]

/-- Claim C10: when the heading's leading text matches the date grammar but
fails both calendar forms, the raw matched phrase lands in the entry's
`date_iso` field, the filename is built from it, the frontmatter carries a
`date:` field containing it, and the entry satisfies the dated-count
predicate of the run summary. -/
theorem claim_C10_raw_phrase (sha : String → String) (doc : List Node) (i j : Nat)
    (g1 g2 : String)
    (hm : matchDateTitle (pyStrip (doc.getD j defaultNode).text) = some (g1, g2))
    (hfail : (parse_date g1).1 = none) :
    (buildEntry doc i j).dateIso = some g1 ∧
    pyTruthy (buildEntry doc i j).dateIso = true ∧
    newsFilename (buildEntry doc i j) = g1 ++ "-" ++ (buildEntry doc i j).id ++ ".md" ∧
    (∃ a b, newsFrontmatter sha (buildEntry doc i j) =
      a ++ ("date: " ++ g1 ++ "T00:00:00Z\n") ++ b) := by
  have hne : g1 ≠ "" := matchDateTitle_fst_ne_empty hm
  have hsnd : (parse_date g1).2 = g1 := by
    rcases parse_date_cases g1 with ⟨h1, h2⟩ | ⟨dt, h1, h2, h3⟩
    · exact h2
    · rw [h1] at hfail
      exact absurd hfail (by simp)
  have hiso : (buildEntry doc i j).dateIso = some g1 := by
    show (parseTitle (pyStrip (doc.getD j defaultNode).text)).dateIso = some g1
    rw [parseTitle, hm]
    show some (parse_date g1).2 = some g1
    rw [hsnd]
  have htruthy : pyTruthy (buildEntry doc i j).dateIso = true := by
    rw [hiso, pyTruthy]
    simp [hne]
  refine ⟨hiso, htruthy, ?_, ?_⟩
  · rw [newsFilename, if_pos htruthy, hiso]
    rfl
  · rw [newsFrontmatter, if_pos htruthy, hiso]
    refine ⟨"---\n" ++ ("title: \"" ++ pyReplaceQuote (buildEntry doc i j).titleFull ++ "\"\n"),
      ("slug: " ++ (buildEntry doc i j).id ++ "\n") ++ "type: news\n" ++
        (if pyTruthy (buildEntry doc i j).dateStr then
          "date_display: \"" ++ (buildEntry doc i j).dateStr.getD "" ++ "\"\n" else "") ++
        ("checksum_html: " ++ sha (buildEntry doc i j).contentHtml ++ "\n") ++ "---\n\n", ?_⟩
    show _ = _
    simp only [Option.getD_some]
    simp [String.append_assoc]

/-- Claim C10, witness: the raw-phrase flow evaluated on the concrete
heading "Version 1, 2024 released". -/
theorem claim_C10_witness :
    (buildEntry wdocC10 0 0).dateIso = some "Version 1, 2024" ∧
    pyTruthy (buildEntry wdocC10 0 0).dateIso = true ∧
    newsFilename (buildEntry wdocC10 0 0) =
      "Version 1, 2024" ++ "-" ++ (buildEntry wdocC10 0 0).id ++ ".md" ∧
    (∃ a b, newsFrontmatter pyStrip (buildEntry wdocC10 0 0) =
      a ++ ("date: " ++ "Version 1, 2024" ++ "T00:00:00Z\n") ++ b) :=
  claim_C10_raw_phrase pyStrip wdocC10 0 0 "Version 1, 2024" "released"
    (by decide) (by decide)

/-! ## The output writer and run driver (claims C4, C5, C7). -/

/-- Claim C4: in both render modes the written file is the same frontmatter
block followed by the mode's body, and that shared frontmatter carries the
digest of the *original, unrendered* body span — so the header checksum is
identical regardless of render mode. -/
theorem claim_C4_checksum (sha h2t : String → String) (e : Entry) :
    (create_news_markdown sha h2t e true).2 = newsFrontmatter sha e ++ e.contentHtml ∧
    (create_news_markdown sha h2t e false).2 =
      newsFrontmatter sha e ++ html_to_markdown h2t e.contentHtml ∧
    ∃ a b, newsFrontmatter sha e =
      a ++ ("checksum_html: " ++ sha e.contentHtml ++ "\n") ++ b := by
  refine ⟨rfl, rfl, ?_⟩
  refine ⟨"---\n" ++ ("title: \"" ++ pyReplaceQuote e.titleFull ++ "\"\n") ++
    (if pyTruthy e.dateIso then "date: " ++ e.dateIso.getD "" ++ "T00:00:00Z\n" else "") ++
    ("slug: " ++ e.id ++ "\n") ++ "type: news\n" ++
    (if pyTruthy e.dateStr then "date_display: \"" ++ e.dateStr.getD "" ++ "\"\n" else ""),
    "---\n\n", ?_⟩
  rw [newsFrontmatter]

theorem parseTitle_dateIso_ne_empty {s d : String}
    (h : (parseTitle s).dateIso = some d) : d ≠ "" := by
  rcases hm : matchDateTitle s with _ | ⟨g1, g2⟩
  · rw [parseTitle, hm] at h
    exact absurd h (by simp)
  · have hpt : parseTitle s =
        ⟨some g1, some (parse_date g1).2, (parse_date g1).1, pyStrip g2⟩ := by
      rw [parseTitle, hm]
    rw [hpt] at h
    injection h with h2
    rcases parse_date_cases g1 with ⟨hfst, hsnd⟩ | ⟨dt, hfst, hsnd, hval⟩
    · rw [hsnd] at h2
      rw [← h2]
      exact matchDateTitle_fst_ne_empty hm
    · rw [hsnd] at h2
      rw [← h2]
      exact isoOf_ne_empty dt

theorem buildEntry_dateIso_ne_empty (doc : List Node) (i j : Nat) {d : String}
    (h : (buildEntry doc i j).dateIso = some d) : d ≠ "" :=
  parseTitle_dateIso_ne_empty h

/-- The three-entry scenario document: two headings with valid leading
dates, one without. -/
def exDocC5 : List Node :=
  [exH3 "e1" "August 22nd, 2025, First", exP "a", exP "b",
   exH3 "e2" "June 2nd, 2024, Second", exP "c",
   exH3 "e3" "No Date Here", exP "d"]

/-- Claim C5: the output filename is `<date_iso>-<id>.md` when a normalized
date is present and `<index padded to three digits>-<id>.md` otherwise; on
the three-entry scenario document this produces exactly the files
`2025-08-22-e1.md`, `2024-06-02-e2.md` and `002-e3.md`, with the summary
counting two dated and one undated entry. -/
theorem claim_C5_filenames :
    (∀ doc : List Node, ∀ e ∈ entries doc,
      newsFilename e =
        match e.dateIso with
        | some d => d ++ "-" ++ e.id ++ ".md"
        | none => pad3 e.index ++ "-" ++ e.id ++ ".md") ∧
    (∀ sha h2t : String → String,
      (runMain true true sha h2t exDocC5).files.map Prod.fst =
        ["2025-08-22-e1.md", "2024-06-02-e2.md", "002-e3.md"] ∧
      (runMain true true sha h2t exDocC5).withDates = 2 ∧
      (runMain true true sha h2t exDocC5).withoutDates = 1) := by
  constructor
  · intro doc e he
    rw [entries] at he
    obtain ⟨p, hp, rfl⟩ := List.mem_map.mp he
    rcases hiso : (buildEntry doc p.1 p.2).dateIso with _ | d
    · rw [newsFilename, hiso]
      rfl
    · have hne := buildEntry_dateIso_ne_empty doc p.1 p.2 hiso
      have htr : pyTruthy (some d) = true := by
        rw [pyTruthy]
        simp [hne]
      rw [newsFilename, hiso, if_pos htr]
      rfl
  · intro sha h2t
    refine ⟨?_, ?_, ?_⟩
    · show ((entries exDocC5).map fun e => create_news_markdown sha h2t e true).map Prod.fst =
        ["2025-08-22-e1.md", "2024-06-02-e2.md", "002-e3.md"]
      rw [List.map_map]
      show (entries exDocC5).map (fun e => newsFilename e) =
        ["2025-08-22-e1.md", "2024-06-02-e2.md", "002-e3.md"]
      decide
    · show (entries exDocC5).countP (fun e => pyTruthy e.dateIso) = 2
      decide
    · show (entries exDocC5).length -
          (entries exDocC5).countP (fun e => pyTruthy e.dateIso) = 1
      decide

/-- Claim C5, witness: the filename rule applied to the first entry of the
scenario document. -/
theorem claim_C5_witness :
    newsFilename (buildEntry exDocC5 0 0) =
      match (buildEntry exDocC5 0 0).dateIso with
      | some d => d ++ "-" ++ (buildEntry exDocC5 0 0).id ++ ".md"
      | none => pad3 (buildEntry exDocC5 0 0).index ++ "-" ++
          (buildEntry exDocC5 0 0).id ++ ".md" :=
  claim_C5_filenames.1 exDocC5 (buildEntry exDocC5 0 0) (by decide)

/-- Claim C7: when Markdown conversion is requested (`--html` absent) but
the `html2text` collaborator is unavailable, the run falls back to literal
HTML mode once for the whole run: exactly one warning is recorded, every
entry's file is written in literal mode, and the run's files coincide with
those of an explicit `--html` run, which itself warns zero times. -/
theorem claim_C7_fallback (sha h2t : String → String) (doc : List Node) :
    (runMain false false sha h2t doc).files =
      (entries doc).map (fun e => create_news_markdown sha h2t e true) ∧
    (runMain false false sha h2t doc).fallbackWarningCount = 1 ∧
    (runMain false false sha h2t doc).formatMode = "HTML" ∧
    (runMain false false sha h2t doc).files = (runMain false true sha h2t doc).files ∧
    (runMain false true sha h2t doc).fallbackWarningCount = 0 :=
  ⟨rfl, rfl, rfl, rfl, rfl⟩

end ExtractNews
